import Mathlib

set_option maxHeartbeats 1000000
set_option maxRecDepth 4000

/-!
Verification development for the `wl-scanner` protocol-binding generator
(`wl-scanner.go`).  The generator reads a Wayland protocol schema
(interfaces with requests, events, enums and typed arguments) and emits Go
source bindings for either the client or the server role.

Shallow embedding conventions:
* Go strings are modelled as `List Char` (`Str`); the Unicode case mappings
  used by `strings.Title` / `strings.ToLower` are modelled on their ASCII
  fragment, which is the alphabet of Wayland wire names.
* The Go map `wlNames` is modelled as an association list where an insert
  prepends (last write wins) and a missing key reads as the zero value `""`,
  exactly like a Go map read.
* Template execution (`executeTemplate`) appends a fragment to the output
  buffer; a fragment is modelled as the template identity plus the exact
  data the template reads, and raw `Fprintf` output is modelled as text.
-/

abbrev Str := List Char

/-- Shorthand turning a string literal into the `List Char` model. -/
def S (s : String) : Str := s.data

def nl : Str := ['\n']

def qt : Str := ['"']

/-- Go `strings.TrimPrefix`. -/
def dropPfx (p s : Str) : Str := if p.isPrefixOf s then s.drop p.length else s

/-- Go `strings.TrimSuffix`. -/
def dropSfx (suf s : Str) : Str :=
  if suf.isSuffixOf s then s.take (s.length - suf.length) else s

/-- Go `strings.Replace(s, old, new, -1)` for single-character old/new. -/
def replChar (a b : Char) (s : Str) : Str := s.map (fun c => if c = a then b else c)

/-- Word-separator test of Go `strings.Title` (ASCII fragment): ASCII
letters, digits and underscore are not separators, everything else is. -/
def isSep (c : Char) : Bool := !(c.isAlpha || c.isDigit || c = '_')

/-- Go `strings.Title`: upper-case every character that follows a separator,
threading the previous character (initially a space). -/
def goTitleAux : Char → Str → Str
  | _, [] => []
  | prev, c :: rest => (if isSep prev then c.toUpper else c) :: goTitleAux c rest

def goTitle (s : Str) : Str := goTitleAux ' ' s

/-- Go `strings.Replace(s, " ", "", -1)`. -/
def removeSpaces (s : Str) : Str := s.filter (fun c => !(c = ' '))

/-- Go `strings.ToLower` (ASCII). -/
def lowerStr (s : Str) : Str := s.map Char.toLower

/-- Go `strings.Split(s, sep)` for a single-character separator: never
returns the empty list of groups. -/
def splitOnChar (sep : Char) : Str → List Str
  | [] => [[]]
  | c :: rest =>
    match splitOnChar sep rest with
    | [] => [[]]
    | g :: gs => if c = sep then [] :: g :: gs else (c :: g) :: gs

/-- Go `strings.TrimSpace` (ASCII whitespace). -/
def trimSpace (s : Str) : Str :=
  ((s.dropWhile Char.isWhitespace).reverse.dropWhile Char.isWhitespace).reverse

/-- `CamelCase` from `wl-scanner.go`: trim the configured package prefix
(the Go global `trimPrefix`, passed here as `tp`), replace underscores with
spaces, `strings.Title`, remove the spaces. -/
def camelCase (tp s : Str) : Str :=
  removeSpaces (goTitle (replChar '_' ' ' (dropPfx tp s)))

/-- Title-case every part except the first (the loop inside `snakeCase`). -/
def titleTail : List Str → List Str
  | [] => []
  | p :: rest => p :: rest.map goTitle

/-- `snakeCase` from `wl-scanner.go` (note: it hardcodes the `wl_` prefix). -/
def snakeCase (s : Str) : Str :=
  (titleTail (splitOnChar ' ' (replChar '_' ' ' (dropPfx (S r"wl_") s)))).flatten

/-- `stripUnstable` from `wl-scanner.go`, parameterized by the Go global
`ifTrimSuffix` (passed here as `sfx`). -/
def stripUnstable (sfx s : Str) : Str := dropSfx sfx s

/-- Generation role selected by the `-side` flag. -/
inductive Side where
  | client
  | server
  deriving DecidableEq

/-- The resolved configuration consumed by the core (`-pkg`, `-unstable`,
`-source` flags after `main`'s validation). -/
structure Config where
  pkgName : Str
  unstable : Str
  src : Str
  deriving DecidableEq

/-- The Go global `trimPrefix` after `main`'s flag handling: default
`"wl_"`, replaced by `pkgName + "_"` when the package is not `wl`. -/
def Config.tp (c : Config) : Str :=
  if c.pkgName = S r"wl" then S r"wl_" else c.pkgName ++ S r"_"

/-- The Go global `ifTrimSuffix`: `"_" + unstable` when an unstable suffix
token is configured, otherwise empty. -/
def Config.sfx (c : Config) : Str :=
  if c.unstable = [] then [] else S r"_" ++ c.unstable

/-- The Go global `wlPrefix`: `"wl."` iff the package is not `wl`. -/
def Config.wlP (c : Config) : Str :=
  if c.pkgName = S r"wl" then [] else S r"wl."

/-! ## Schema model (the xml types of `wl-scanner.go`) -/

structure Description where
  summary : Str
  text : Str
  deriving DecidableEq

structure Arg where
  name : Str
  type : Str
  /-- The `Interface` xml attribute; empty when absent. -/
  iface : Str
  enum : Str
  allowNull : Bool
  deriving DecidableEq

structure Request where
  name : Str
  type : Str
  since : Int
  description : Description
  args : List Arg
  deriving DecidableEq

structure Event where
  name : Str
  type : Str
  since : Int
  description : Description
  args : List Arg
  deriving DecidableEq

structure ScEntry where
  name : Str
  value : Str
  deriving DecidableEq

structure Enum where
  name : Str
  bitfield : Bool
  entries : List ScEntry
  deriving DecidableEq

structure Interface where
  name : Str
  version : Int
  requests : List Request
  events : List Event
  enums : List Enum
  deriving DecidableEq

structure Protocol where
  name : Str
  interfaces : List Interface
  deriving DecidableEq

/-- The `RoE` view (`wl-scanner.go`): the common projection of `Request`
and `Event` used by `ProcessRequests` / `ProcessEvents`. -/
structure RoE where
  nameStr : Str
  desc : Description
  argss : List Arg
  deriving DecidableEq

def Request.toRoE (r : Request) : RoE := ⟨r.name, r.description, r.args⟩

def Event.toRoE (e : Event) : RoE := ⟨e.name, e.description, e.args⟩

/-! ## The symbol table (the Go map `wlNames`) -/

abbrev SymTable := List (Str × Str)

/-- Go map assignment `m[k] = v` (prepend: last write wins on lookup). -/
def mapSet (m : SymTable) (k v : Str) : SymTable := (k, v) :: m

def mapFind : SymTable → Str → Option Str
  | [], _ => none
  | p :: rest, k => if p.1 = k then some p.2 else mapFind rest k

/-- Go map read `m[k]`: zero value `""` when the key is absent. -/
def mapGet (m : SymTable) (k : Str) : Str := (mapFind m k).getD []

/-- The closed wire-type mapping `wlTypes`. -/
def wlTypes : SymTable :=
  [(S r"int", S r"int32"), (S r"uint", S r"uint32"), (S r"string", S r"string"),
   (S r"fd", S r"uintptr"), (S r"fixed", S r"float32"), (S r"array", S r"[]int32")]

/-- The decode-operation mapping `bufTypesMap`. -/
def bufTypesMap : SymTable :=
  [(S r"int32", S r"Int32()"), (S r"uint32", S r"Uint32()"), (S r"string", S r"String()"),
   (S r"float32", S r"Float32()"), (S r"[]int32", S r"Array()"), (S r"uintptr", S r"FD()")]

/-- The fixed allow-list `inheritedNames` of base-protocol interfaces. -/
def inheritedNames : List Str :=
  [S r"wl_display", S r"wl_registry", S r"wl_callback", S r"wl_compositor",
   S r"wl_shm_pool", S r"wl_shm", S r"wl_buffer", S r"wl_data_offer",
   S r"wl_data_source", S r"wl_data_device", S r"wl_data_device_manager",
   S r"wl_shell", S r"wl_shell_surface", S r"wl_surface", S r"wl_seat",
   S r"wl_pointer", S r"wl_keyboard", S r"wl_touch", S r"wl_output",
   S r"wl_region", S r"wl_subcompositor", S r"wl_subsurface"]

/-- The initial `wlNames` contents built by `main` before the registration
pass: when the protocol document is not named `wayland`, every allow-listed
base interface is pre-mapped to `"wl." + CamelCase(name)`.  This loop runs
before `trimPrefix` is reconfigured, so it always trims the default
`"wl_"`. -/
def baseNames (protName : Str) : SymTable :=
  if protName = S r"wayland" then []
  else inheritedNames.foldl (fun m n => mapSet m n (S r"wl." ++ camelCase (S r"wl_") n)) []

/-- `caseAndRegister` from `wl-scanner.go`. -/
def caseAndRegister (cfg : Config) (m : SymTable) (wlName : Str) : SymTable :=
  mapSet m wlName (camelCase cfg.tp wlName)

/-- `main`'s registration pass: one pass over all interfaces, registering
the suffix-stripped name of each. -/
def registerAll (cfg : Config) (m : SymTable) (ifaces : List Interface) : SymTable :=
  ifaces.foldl (fun m i => caseAndRegister cfg m (stripUnstable cfg.sfx i.name)) m

/-- The fully populated symbol table visible to every binding build. -/
def mainTable (cfg : Config) (p : Protocol) : SymTable :=
  registerAll cfg (baseNames p.name) p.interfaces

/-! ## Binding model (the "go types" of `wl-scanner.go`) -/

structure GoArg where
  name : Str
  type : Str
  pName : Str
  bufMethod : Str
  allowNull : Bool
  basicType : Bool
  snakeName : Str
  deriving DecidableEq

structure GoEvent where
  wl : Str
  name : Str
  ifaceName : Str
  pName : Str
  eName : Str
  args : List GoArg
  deriving DecidableEq

structure GoRequest where
  name : Str
  ifaceName : Str
  params : Str
  returns : Str
  args : Str
  hasNewId : Bool
  /-- source field `NewIdInterface`. -/
  newIdIface : Str
  /-- source field `Prefix`. -/
  pfx : Str
  order : Nat
  summary : Str
  description : Str
  deriving DecidableEq

structure GoEntry where
  name : Str
  value : Str
  deriving DecidableEq

structure GoEnum where
  name : Str
  ifaceName : Str
  entries : List GoEntry
  deriving DecidableEq

/-- `strings.Split(resolvedName, ".")` as used on new-id arguments. -/
def dotSplit (s : Str) : List Str := splitOnChar '.' s

/-- The package-qualifier part: `strings.Join(components[:len-1], ".") + "."`
when there is more than one component, else empty. -/
def dotPfxOf (comps : List Str) : Str :=
  if comps.length > 1 then (List.intercalate (S r".") comps.dropLast) ++ S r"." else []

/-- `components[len(components)-1]`. -/
def lastComp (comps : List Str) : Str := comps.getLastD []

/-- The per-argument body of `ProcessEvents`: builds one `GoArg`,
including its decode expression (`BufMethod`).  Faithful to the
if/else-if chain of `wl-scanner.go` (basic types via `wlTypes` and
`bufTypesMap`; then the four interface-typed cases, which are the only
place the generation role is consulted). -/
def mkGoArgBase (cfg : Config) (arg : Arg) : GoArg :=
  { name := camelCase cfg.tp arg.name
    pName := snakeCase arg.name
    allowNull := arg.allowNull
    type := [], bufMethod := [], basicType := false, snakeName := [] }

/-- The resolved referenced-interface identifier of an argument (the Go
map read `wlNames[stripUnstable(arg.Interface)]`). -/
def argResolved (cfg : Config) (tbl : SymTable) (arg : Arg) : Str :=
  mapGet tbl (stripUnstable cfg.sfx arg.iface)

def mkGoArg (side : Side) (cfg : Config) (tbl : SymTable) (arg : Arg) : GoArg :=
  match mapFind wlTypes arg.type with
  | some t =>
    { mkGoArgBase cfg arg with
        type := t
        bufMethod :=
          match mapFind bufTypesMap t with
          | none => []
          | some b =>
            if b = S r"FD()" then S r"p.Context().NextFD()" else S r"event." ++ b
        basicType := true }
  | none =>
    if arg.type = S r"new_id" ∧ side = Side.server ∧ arg.iface ≠ [] then
      { mkGoArgBase cfg arg with
          type := S r"*" ++ argResolved cfg tbl arg
          bufMethod := dotPfxOf (dotSplit (argResolved cfg tbl arg))
                       ++ S r"New" ++ lastComp (dotSplit (argResolved cfg tbl arg))
                       ++ S r"(p.Context(), int(event.Uint32()))" }
    else if arg.type = S r"new_id" ∧ arg.iface ≠ [] then
      { mkGoArgBase cfg arg with
          type := S r"*" ++ argResolved cfg tbl arg
          bufMethod := S r"event.Proxy(p.Context()).("
                       ++ (S r"*" ++ argResolved cfg tbl arg) ++ S r")" }
    else if arg.type = S r"object" ∧ arg.allowNull = false ∧ arg.iface ≠ [] then
      { mkGoArgBase cfg arg with
          type := S r"*" ++ argResolved cfg tbl arg
          bufMethod := S r"event.Proxy(p.Context()).("
                       ++ (S r"*" ++ argResolved cfg tbl arg) ++ S r")" }
    else if arg.type = S r"object" ∧ arg.allowNull = true ∧ arg.iface ≠ [] then
      { mkGoArgBase cfg arg with
          type := S r"*" ++ argResolved cfg tbl arg
          bufMethod := S r"event.Proxy(p.Context())"
          snakeName := lowerStr (mkGoArgBase cfg arg).name }
    else
      { mkGoArgBase cfg arg with
          type := cfg.wlP ++ S r"Proxy"
          bufMethod := S r"event." ++ cfg.wlP ++ S r"Proxy(p.Context())" }

/-- One inbound entry of `ProcessEvents`: the event payload binding.
`iName` is the resolved interface identifier (`GoInterface.Name`). -/
def mkGoEvent (side : Side) (cfg : Config) (tbl : SymTable) (iName : Str) (ev : RoE) : GoEvent :=
  let nm := camelCase cfg.tp ev.nameStr
  { wl := cfg.wlP
    name := nm
    pName := snakeCase ev.nameStr
    ifaceName := iName
    eName := iName ++ nm
    args := ev.argss.map (mkGoArg side cfg tbl) }

/-- The inbound list of `ProcessEvents`. -/
def processEvents (side : Side) (cfg : Config) (tbl : SymTable) (iName : Str)
    (roes : List RoE) : List GoEvent :=
  roes.map (mkGoEvent side cfg tbl iName)

/-- The per-argument accumulator of `ProcessRequests`. -/
structure ReqState where
  returns : List Str
  params : List Str
  sendArgs : List Str
  hasNewId : Bool
  newIdIface : Str
  pfx : Str
  deriving DecidableEq

/-- The body of `ProcessRequests`' argument loop, one argument at a time.
Note the faithful reproduction of `wl-scanner.go` line 402, which appends
to `params` (not `sendRequestArgs`) when building the send-arguments of a
typed new-id argument. -/
def reqStep (cfg : Config) (tbl : SymTable) (st : ReqState) (arg : Arg) : ReqState :=
  let nm := if arg.name = S r"interface" then S r"iface" else arg.name
  if arg.type = S r"new_id" then
    if arg.iface ≠ [] then
      let resolved := mapGet tbl (stripUnstable cfg.sfx arg.iface)
      let comps := dotSplit resolved
      { st with
          newIdIface := lastComp comps
          pfx := dotPfxOf comps
          sendArgs := st.params ++ [cfg.wlP ++ S r"Proxy(ret)"]
          hasNewId := true
          returns := st.returns ++ [S r"*" ++ resolved] }
    else
      { st with
          sendArgs := st.sendArgs ++ [S r"iface", S r"version", nm]
          params := st.params ++ [S r"iface string", S r"version uint32",
                                  nm ++ S r" " ++ cfg.wlP ++ S r"Proxy"] }
  else if arg.type = S r"object" ∧ arg.iface ≠ [] then
    { st with
        params := st.params ++ [nm ++ S r" *" ++ mapGet tbl (stripUnstable cfg.sfx arg.iface)]
        sendArgs := st.sendArgs ++ [nm] }
  else
    { st with
        sendArgs := st.sendArgs ++ [nm]
        params := st.params ++ [nm ++ S r" " ++ mapGet wlTypes arg.type] }

/-- `reflow` from `wl-scanner.go`. -/
def reflow (text : Str) : Str :=
  ((splitOnChar '\n' text).map (fun line => S r"// " ++ trimSpace line ++ nl)).flatten

def commaJoin (xs : List Str) : Str := List.intercalate (S r",") xs

/-- One outbound entry of `ProcessRequests`: the request binding carrying
its opcode (`Order`). -/
def mkGoRequest (cfg : Config) (tbl : SymTable) (iName : Str) (order : Nat)
    (r : RoE) : GoRequest :=
  let st := r.argss.foldl (reqStep cfg tbl) ⟨[], [], [], false, [], []⟩
  { name := camelCase cfg.tp r.nameStr
    ifaceName := stripUnstable cfg.sfx iName
    order := order
    summary := r.desc.summary
    description := reflow r.desc.text
    params := commaJoin st.params
    args := if st.sendArgs ≠ [] then S r"," ++ commaJoin st.sendArgs else []
    returns := if st.returns ≠ [] then S r"(" ++ commaJoin st.returns ++ S r" , error)"
               else S r"error"
    hasNewId := st.hasNewId
    newIdIface := st.newIdIface
    pfx := st.pfx }

def processRequestsAux (cfg : Config) (tbl : SymTable) (iName : Str) :
    Nat → List RoE → List GoRequest
  | _, [] => []
  | order, r :: rest =>
    mkGoRequest cfg tbl iName order r :: processRequestsAux cfg tbl iName (order + 1) rest

/-- The outbound list of `ProcessRequests`: `for order, wlReq := range roe`. -/
def processRequests (cfg : Config) (tbl : SymTable) (iName : Str)
    (roes : List RoE) : List GoRequest :=
  processRequestsAux cfg tbl iName 0 roes

/-- Which schema list `main` feeds to `ProcessRequests` (the outbound,
caller-invoked list): requests under the client role, events under the
server role. -/
def outboundSrc (side : Side) (i : Interface) : List RoE :=
  match side with
  | Side.client => i.requests.map Request.toRoE
  | Side.server => i.events.map Event.toRoE

/-- Which schema list `main` feeds to `ProcessEvents` (the inbound,
dispatched list): events under the client role, requests under the server
role. -/
def inboundSrc (side : Side) (i : Interface) : List RoE :=
  match side with
  | Side.client => i.events.map Event.toRoE
  | Side.server => i.requests.map Request.toRoE

/-! ## Emission model

`executeTemplate` renders a fixed template over the data it is handed and
appends the result to the single output buffer; `fmt.Fprintf` appends raw
text.  A run's output is modelled as the raw header text followed by the
ordered list of template fragments, each fragment carrying exactly the
data its template reads.  Template rendering is a fixed pure function, so
two runs produce byte-identical output iff they produce the same header
text and the same fragment list. -/

inductive Fragment where
  /-- `ifaceTypeTemplate` (reads Name, WL, Events). -/
  | ifaceType (name wl : Str) (events : List GoEvent)
  /-- `ifaceConstructorTemplate` / `ifaceConstructorTemplateId`, chosen by
  the role: the client constructor takes only a context, the server
  constructor additionally takes the object id. -/
  | ctor (side : Side) (name wl : Str)
  /-- `eventTemplate`. -/
  | eventTpl (e : GoEvent)
  /-- `ifaceAddRemoveHandlerTemplate`. -/
  | addRemove (e : GoEvent)
  /-- `ifaceDispatchTemplate` (reads Name, WL, Events). -/
  | dispatch (name wl : Str) (events : List GoEvent)
  /-- `requestTemplate`. -/
  | request (r : GoRequest)
  /-- `ifaceEnums`. -/
  | enums (g : GoEnum)
  deriving DecidableEq

/-- The fragments appended while `ProcessEvents` runs: per event the
payload type then the handler add/remove pair, and after the loop the
dispatch routine — only when the interface has at least one inbound
entry. -/
def eventFrags (iName wl : Str) (evts : List GoEvent) : List Fragment :=
  (evts.map (fun e => [Fragment.eventTpl e, Fragment.addRemove e])).flatten ++
  (if evts ≠ [] then [Fragment.dispatch iName wl evts] else [])

/-- `ProcessEnums` data. -/
def mkGoEnum (cfg : Config) (iName : Str) (e : Enum) : GoEnum :=
  { name := camelCase cfg.tp e.name
    ifaceName := iName
    entries := e.entries.map (fun en => ⟨camelCase cfg.tp en.name, en.value⟩) }

def enumFrags (cfg : Config) (iName : Str) (es : List Enum) : List Fragment :=
  es.map (fun e => Fragment.enums (mkGoEnum cfg iName e))

/-- One iteration of `main`'s per-interface loop: under either role the
call order is ProcessEvents (inbound list), Constructor, ProcessRequests
(outbound list), ProcessEnums; the roles differ only in which schema list
is fed to which processor and in the constructor template. -/
def buildIface (cfg : Config) (tbl : SymTable) (side : Side) (iface : Interface) :
    List Fragment :=
  let iName := mapGet tbl (stripUnstable cfg.sfx iface.name)
  let evs := processEvents side cfg tbl iName (inboundSrc side iface)
  let reqs := processRequests cfg tbl iName (outboundSrc side iface)
  eventFrags iName cfg.wlP evs
    ++ [Fragment.ifaceType iName cfg.wlP evs, Fragment.ctor side iName cfg.wlP]
    ++ reqs.map Fragment.request
    ++ enumFrags cfg iName iface.enums

/-- The raw header written by `main`'s `Fprintf` sequence before the
per-interface loop, one append per `Fprintf` call; `now` is the formatted
`time.Now()` value. -/
def genHeader (cfg : Config) (protName now : Str) : Str :=
  (S r"// package " ++ cfg.pkgName ++ S r" acts as a client for the " ++ protName
    ++ S r" wayland protocol." ++ nl ++ nl)
  ++ (S r"// generated by wl-scanner" ++ nl ++ S r"// https://github.com/malcolmstill/wl-scanner" ++ nl)
  ++ (S r"// from: " ++ cfg.src ++ nl)
  ++ (S r"// on " ++ now ++ nl)
  ++ (S r"package " ++ cfg.pkgName ++ nl)
  ++ (S r"import (" ++ nl ++ S r"     " ++ qt ++ S r"sync" ++ qt ++ nl)
  ++ (if cfg.pkgName ≠ S r"wl" then S r"     " ++ qt ++ S r"github.com/malcolmstill/wl" ++ qt ++ nl else [])
  ++ (S r")" ++ nl)

/-- A whole generation run: symbol-table setup, header, then the fragment
stream of every interface in declaration order.  Total: the core has no
failure path (map misses read as `""`). -/
def generate (cfg : Config) (side : Side) (p : Protocol) (now : Str) :
    Str × List Fragment :=
  let tbl := mainTable cfg p
  (genHeader cfg p.name now, (p.interfaces.map (buildIface cfg tbl side)).flatten)

/-! ## Dispatch-routine model

`ifaceDispatchTemplate` switches on `event.Opcode` with one `case {{$i}}:`
per element of `.Events`, `$i` being the template range index; inside a
case, an argument whose binding is non-basic and nullable decodes through
a nil-guarded branch, every other argument is assigned its decode
expression directly. -/

/-- The decode shape of one argument inside a dispatch case. -/
inductive ArgDecode where
  /-- `snake := buf; if snake != nil { ev.field = snake.(typ) }` -/
  | branched (snake buf typ fieldName : Str)
  /-- `ev.field = buf` -/
  | direct (fieldName buf : Str)
  deriving DecidableEq

/-- The template condition `and (not .BasicType) (.AllowNull)`. -/
def argDecode (a : GoArg) : ArgDecode :=
  if a.basicType = false ∧ a.allowNull = true then
    ArgDecode.branched a.snakeName a.bufMethod a.type a.name
  else ArgDecode.direct a.name a.bufMethod

/-- The ordered `case` list of the dispatch routine: the template range
pairs each event binding with its zero-based index, which is the opcode
the case is keyed by. -/
def dispatchCases (evts : List GoEvent) : List (Nat × GoEvent) := evts.enum

/-- The body text generated for a new-id-allocating request by
`requestTemplate`: the local proxy is constructed from the caller-supplied
`id` parameter. -/
def requestCtorCall (r : GoRequest) : Str :=
  if r.hasNewId then r.pfx ++ S r"New" ++ r.newIdIface ++ S r"(p.Context(), id)" else []

/-! ## Derived definitions used by the verification -/

/-- The default configuration: base package `wl`, no unstable suffix. -/
def cfgWl : Config := ⟨S r"wl", [], []⟩

/-- Erase the decode expression of one argument binding. -/
def eraseArgBuf (a : GoArg) : GoArg := { a with bufMethod := [] }

/-- Erase the decode expressions of an event binding. -/
def eraseEventBufs (e : GoEvent) : GoEvent := { e with args := e.args.map eraseArgBuf }

/-- The identifier the generator derives for a wire interface name:
`CamelCase(stripUnstable(name))`, exactly as the registration pass stores
it. -/
def derivedId (cfg : Config) (wireName : Str) : Str :=
  camelCase cfg.tp (stripUnstable cfg.sfx wireName)

/-- Title-casing of one underscore-separated segment, as the spec words
"title-casing each segment" read: capitalize its first character. -/
def titleSeg : Str → Str
  | [] => []
  | c :: r => c.toUpper :: r

/-- Modelled from the spec's words, in the spec's stated order: "stripping
the configured package-local prefix …, stripping the configured
unstable-suffix token when present, splitting on underscore, title-casing
each segment, and concatenating". -/
def specDerivedId (cfg : Config) (wireName : Str) : Str :=
  ((splitOnChar '_' (dropSfx cfg.sfx (dropPfx cfg.tp wireName))).map titleSeg).flatten

/-- The same pipeline with the two strips in the code's order: unstable
suffix first, package prefix second. -/
def specDerivedIdSfxFirst (cfg : Config) (wireName : Str) : Str :=
  ((splitOnChar '_' (dropPfx cfg.tp (dropSfx cfg.sfx wireName))).map titleSeg).flatten

/-- The header text up to (and excluding) the formatted timestamp. -/
def genHeaderPre (cfg : Config) (protName : Str) : Str :=
  S r"// package " ++ cfg.pkgName ++ S r" acts as a client for the " ++ protName
    ++ S r" wayland protocol." ++ nl ++ nl
    ++ S r"// generated by wl-scanner" ++ nl
    ++ S r"// https://github.com/malcolmstill/wl-scanner" ++ nl
    ++ S r"// from: " ++ cfg.src ++ nl ++ S r"// on "

/-- The header text after the formatted timestamp. -/
def genHeaderPost (cfg : Config) : Str :=
  nl ++ S r"package " ++ cfg.pkgName ++ nl
    ++ S r"import (" ++ nl ++ S r"     " ++ qt ++ S r"sync" ++ qt ++ nl
    ++ (if cfg.pkgName ≠ S r"wl" then S r"     " ++ qt ++ S r"github.com/malcolmstill/wl" ++ qt ++ nl else [])
    ++ S r")" ++ nl

/-- Two-interface document where `wl_alpha` is declared before `wl_beta`:
a reference to `wl_beta` from `wl_alpha` is a forward reference, the
converse a backward one. -/
def crossP : Protocol :=
  ⟨S r"cross", [⟨S r"wl_alpha", 1, [], [], []⟩, ⟨S r"wl_beta", 1, [], [], []⟩]⟩

/-- One interface whose single request has an object argument referencing
`ghost`, an interface name never declared in the document. -/
def ghostP : Protocol :=
  ⟨S r"demo", [⟨S r"demo_thing", 1,
      [⟨S r"do_it", [], 0, ⟨[], []⟩, [⟨S r"x", S r"object", S r"ghost", [], false⟩]⟩],
      [], []⟩]⟩

/-- One interface whose single event has an argument with the wire type
tag `weird`, outside the closed scalar/aggregate/object/new-id set. -/
def weirdP : Protocol :=
  ⟨S r"demo", [⟨S r"demo_thing", 1, [],
      [⟨S r"boom", [], 0, ⟨[], []⟩, [⟨S r"x", S r"weird", [], [], false⟩]⟩],
      []⟩]⟩

/-- A symbol table with one local entry, used for concrete instantiation. -/
def tblW : SymTable := [(S r"wl_surface", S r"Surface")]

/-! ## Symbol-table lemmas -/

theorem registerAll_cons (cfg : Config) (m : SymTable) (i : Interface) (l : List Interface) :
    registerAll cfg m (i :: l)
      = registerAll cfg (caseAndRegister cfg m (stripUnstable cfg.sfx i.name)) l := rfl

/-- Once a key holds the identifier `caseAndRegister` derives for it, further
registrations never change it: every registration of the same key rewrites
the same value, and registrations of other keys do not shadow it. -/
theorem registerAll_preserve (cfg : Config) (l : List Interface) (m : SymTable) (k : Str)
    (h : mapFind m k = some (camelCase cfg.tp k)) :
    mapFind (registerAll cfg m l) k = some (camelCase cfg.tp k) := by
  induction l generalizing m with
  | nil => exact h
  | cons i l ih =>
    rw [registerAll_cons]
    apply ih
    by_cases hk : stripUnstable cfg.sfx i.name = k
    · rw [hk]
      simp [caseAndRegister, mapSet, mapFind]
    · simpa [caseAndRegister, mapSet, mapFind, hk] using h

/-- A key registered anywhere in the pass resolves to its derived
identifier in the final table, whatever the initial table held. -/
theorem registerAll_mem (cfg : Config) (l : List Interface) :
    ∀ (m : SymTable) (k : Str), (∃ i ∈ l, stripUnstable cfg.sfx i.name = k) →
    mapFind (registerAll cfg m l) k = some (camelCase cfg.tp k) := by
  induction l with
  | nil => intro m k h; simp at h
  | cons i l ih =>
    intro m k h
    rw [registerAll_cons]
    rcases h with ⟨j, hj, hk⟩
    rcases List.mem_cons.1 hj with rfl | hjl
    · apply registerAll_preserve
      rw [← hk]
      simp [caseAndRegister, mapSet, mapFind]
    · exact ih _ k ⟨j, hjl, hk⟩

/-- C8: the symbol table holds an entry for every interface declared
anywhere in the document before any interface's bindings are built
(`mainTable` is the table every binding build receives), and an argument
reference resolves purely by membership of its suffix-stripped name among
the declared interfaces — so forward and backward references resolve to
the same identifier. -/
theorem c8_two_phase_symbol_table (cfg : Config) (p : Protocol) :
    (∀ iface ∈ p.interfaces,
        mapFind (mainTable cfg p) (stripUnstable cfg.sfx iface.name)
          = some (camelCase cfg.tp (stripUnstable cfg.sfx iface.name)))
    ∧ (∀ n : Str,
        (∃ iface ∈ p.interfaces,
            stripUnstable cfg.sfx iface.name = stripUnstable cfg.sfx n) →
        mapGet (mainTable cfg p) (stripUnstable cfg.sfx n)
          = camelCase cfg.tp (stripUnstable cfg.sfx n)) := by
  constructor
  · intro iface hmem
    exact registerAll_mem cfg p.interfaces (baseNames p.name) _ ⟨iface, hmem, rfl⟩
  · intro n hex
    unfold mapGet mainTable
    rw [registerAll_mem cfg p.interfaces (baseNames p.name) _ hex]
    rfl

theorem c8_two_phase_symbol_table_witness :
    mapFind (mainTable ⟨S r"wl", [], []⟩ crossP) (stripUnstable (Config.sfx ⟨S r"wl", [], []⟩) (S r"wl_beta"))
      = some (camelCase (Config.tp ⟨S r"wl", [], []⟩) (stripUnstable (Config.sfx ⟨S r"wl", [], []⟩) (S r"wl_beta")))
    ∧ mapGet (mainTable ⟨S r"wl", [], []⟩ crossP) (stripUnstable (Config.sfx ⟨S r"wl", [], []⟩) (S r"wl_alpha"))
      = camelCase (Config.tp ⟨S r"wl", [], []⟩) (stripUnstable (Config.sfx ⟨S r"wl", [], []⟩) (S r"wl_alpha")) :=
  ⟨(c8_two_phase_symbol_table ⟨S r"wl", [], []⟩ crossP).1 ⟨S r"wl_beta", 1, [], [], []⟩ (by decide),
   (c8_two_phase_symbol_table ⟨S r"wl", [], []⟩ crossP).2 (S r"wl_alpha")
     ⟨⟨S r"wl_alpha", 1, [], [], []⟩, by decide, by decide⟩⟩

/-- C10: an interface declared in the document whose suffix-stripped name
is on the inherited allow-list is re-registered by the registration pass,
overwriting the pre-installed qualified mapping, so every reference
resolves to the local identifier `camelCase` derives; the closed second
conjunct shows on a concrete run that the resulting identifier really
replaced the namespace-qualified one. -/
theorem c10_local_declaration_overrides (cfg : Config) (p : Protocol) (n : Str)
    (hdecl : ∃ iface ∈ p.interfaces, stripUnstable cfg.sfx iface.name = n) :
    (n ∈ inheritedNames → mapFind (mainTable cfg p) n = some (camelCase cfg.tp n))
    ∧ (mapFind (mainTable ⟨S r"wl", [], []⟩ ⟨S r"xdg_shell", [⟨S r"wl_output", 1, [], [], []⟩]⟩)
          (S r"wl_output") = some (S r"Output")
        ∧ mapFind (baseNames (S r"xdg_shell")) (S r"wl_output") = some (S r"wl.Output")) :=
  ⟨fun _ => registerAll_mem cfg p.interfaces (baseNames p.name) n hdecl, by decide⟩

theorem c10_local_declaration_overrides_witness :
    mapFind (mainTable ⟨S r"wl", [], []⟩ ⟨S r"xdg_shell", [⟨S r"wl_output", 1, [], [], []⟩]⟩)
        (S r"wl_output")
      = some (camelCase (Config.tp ⟨S r"wl", [], []⟩) (S r"wl_output")) :=
  (c10_local_declaration_overrides ⟨S r"wl", [], []⟩
      ⟨S r"xdg_shell", [⟨S r"wl_output", 1, [], [], []⟩]⟩ (S r"wl_output")
      ⟨⟨S r"wl_output", 1, [], [], []⟩, by decide, by decide⟩).1 (by decide)

/-- C9 (amended): the pre-installed mappings for the allow-listed base
interfaces are keyed on the *protocol document's name*: every allow-listed
name maps to the `wl.`-qualified identifier exactly when the document is
not named `wayland`, and no entry is pre-installed at all when it is. -/
theorem c9_amended_inherited_qualification (protName : Str) :
    (protName ≠ S r"wayland" →
       ∀ n ∈ inheritedNames,
         mapFind (baseNames protName) n = some (S r"wl." ++ camelCase (S r"wl_") n))
    ∧ (protName = S r"wayland" → baseNames protName = []) := by
  constructor
  · intro h
    unfold baseNames
    rw [if_neg h]
    decide
  · intro h
    unfold baseNames
    rw [if_pos h]

/-- C9 counterexample: with target package `wl` — the base package itself —
and a document named `xdg_shell` declaring nothing, the allow-listed name
`wl_display` is still mapped to the namespace-qualified `wl.Display`
(the code's guard is the protocol name, not the target package), refuting
"qualified exactly when the target package is not the base package". -/
theorem c9_counterexample :
    Config.pkgName ⟨S r"wl", [], []⟩ = S r"wl"
    ∧ mapFind (mainTable ⟨S r"wl", [], []⟩ ⟨S r"xdg_shell", []⟩) (S r"wl_display")
        = some (S r"wl.Display")
    ∧ S r"wl.Display" ≠ camelCase (Config.tp ⟨S r"wl", [], []⟩) (S r"wl_display") := by
  decide

theorem c9_amended_inherited_qualification_witness :
    mapFind (baseNames (S r"xdg_shell")) (S r"wl_display")
      = some (S r"wl." ++ camelCase (S r"wl_") (S r"wl_display")) :=
  (c9_amended_inherited_qualification (S r"xdg_shell")).1 (by decide) (S r"wl_display") (by decide)

/-! ## Opcode assignment (C1, C2) -/

/-- `ProcessRequests` is the index-pairing of its input: the binding built
at position `k` of the loop started at `n` is built with order `n + k`. -/
theorem processRequestsAux_eq_enumFrom (cfg : Config) (tbl : SymTable) (iName : Str) :
    ∀ (n : Nat) (roes : List RoE),
      processRequestsAux cfg tbl iName n roes
        = (List.enumFrom n roes).map (fun kr => mkGoRequest cfg tbl iName kr.1 kr.2) := by
  intro n roes
  induction roes generalizing n with
  | nil => rfl
  | cons r rest ih => simp [processRequestsAux, List.enumFrom_cons, ih]

/-- The opcodes of the outbound binding list are `0, 1, …, len-1` in
declaration order. -/
theorem processRequests_map_order (cfg : Config) (tbl : SymTable) (iName : Str)
    (roes : List RoE) :
    (processRequests cfg tbl iName roes).map GoRequest.order = List.range roes.length := by
  unfold processRequests
  rw [processRequestsAux_eq_enumFrom, List.map_map]
  have h : (GoRequest.order ∘ fun kr : Nat × RoE => mkGoRequest cfg tbl iName kr.1 kr.2)
      = Prod.fst := rfl
  rw [h, List.enumFrom_map_fst, List.range_eq_range']

/-- C1: for every schema interface, role and configuration, the binding
built for the Nth entry of the active outbound list carries opcode N
(zero-based, in declaration order), and the dispatch routine for the
active inbound list has exactly one case per entry, keyed by the entry's
zero-based declaration index, in order, with no gaps: its case keys are
`0, …, len-1` and its Nth payload is the binding of the Nth declared
entry. -/
theorem c1_opcode_invariant (cfg : Config) (tbl : SymTable) (side : Side)
    (iface : Interface) (iName : Str) :
    ((processRequests cfg tbl iName (outboundSrc side iface)).map GoRequest.order
        = List.range (outboundSrc side iface).length)
    ∧ (processRequests cfg tbl iName (outboundSrc side iface)
        = (outboundSrc side iface).enum.map
            (fun kr => mkGoRequest cfg tbl iName kr.1 kr.2))
    ∧ ((dispatchCases (processEvents side cfg tbl iName (inboundSrc side iface))).map Prod.fst
        = List.range (inboundSrc side iface).length)
    ∧ ((dispatchCases (processEvents side cfg tbl iName (inboundSrc side iface))).map Prod.snd
        = (inboundSrc side iface).map (mkGoEvent side cfg tbl iName)) := by
  refine ⟨processRequests_map_order cfg tbl iName _, ?_, ?_, ?_⟩
  · unfold processRequests
    rw [processRequestsAux_eq_enumFrom, List.enum_eq_enumFrom]
  · simp [dispatchCases, processEvents, List.enum_eq_enumFrom, List.enumFrom_map_fst,
      List.range_eq_range']
  · simp [dispatchCases, processEvents, List.enum_eq_enumFrom, List.enumFrom_map_snd]

/-- The only role-dependent step of the whole binding build is the decode
expression of a typed new-id event argument: erasing the decode
expressions, the client and server builds of one argument agree. -/
theorem mkGoArg_erase_side (cfg : Config) (tbl : SymTable) (arg : Arg) :
    eraseArgBuf (mkGoArg Side.client cfg tbl arg)
      = eraseArgBuf (mkGoArg Side.server cfg tbl arg) := by
  unfold mkGoArg
  cases hm : mapFind wlTypes arg.type with
  | some t => rfl
  | none =>
    dsimp only
    by_cases h2 : arg.type = S r"new_id" ∧ arg.iface ≠ []
    · have hc : ¬(arg.type = S r"new_id" ∧ Side.client = Side.server ∧ arg.iface ≠ []) := by
        rintro ⟨-, hss, -⟩
        exact absurd hss (by decide)
      have hs : arg.type = S r"new_id" ∧ Side.server = Side.server ∧ arg.iface ≠ [] :=
        ⟨h2.1, rfl, h2.2⟩
      rw [if_neg hc, if_pos h2, if_pos hs]
      rfl
    · have hc : ¬(arg.type = S r"new_id" ∧ Side.client = Side.server ∧ arg.iface ≠ []) := by
        rintro ⟨ha, -, hb⟩
        exact h2 ⟨ha, hb⟩
      have hs : ¬(arg.type = S r"new_id" ∧ Side.server = Side.server ∧ arg.iface ≠ []) := by
        rintro ⟨ha, -, hb⟩
        exact h2 ⟨ha, hb⟩
      rw [if_neg hc, if_neg hs]

/-- Away from typed new-id arguments the two roles build identical
argument bindings, decode expressions included. -/
theorem mkGoArg_side_agnostic (cfg : Config) (tbl : SymTable) (arg : Arg)
    (h : ¬(arg.type = S r"new_id" ∧ arg.iface ≠ [])) :
    mkGoArg Side.client cfg tbl arg = mkGoArg Side.server cfg tbl arg := by
  unfold mkGoArg
  cases hm : mapFind wlTypes arg.type with
  | some t => rfl
  | none =>
    dsimp only
    have hc : ¬(arg.type = S r"new_id" ∧ Side.client = Side.server ∧ arg.iface ≠ []) := by
      rintro ⟨ha, -, hb⟩
      exact h ⟨ha, hb⟩
    have hs : ¬(arg.type = S r"new_id" ∧ Side.server = Side.server ∧ arg.iface ≠ []) := by
      rintro ⟨ha, -, hb⟩
      exact h ⟨ha, hb⟩
    rw [if_neg hc, if_neg hs, if_neg h]

/-- Building the same inbound list under the two roles yields the same
event bindings up to decode expressions. -/
theorem processEvents_erase_side (cfg : Config) (tbl : SymTable) (iName : Str)
    (roes : List RoE) :
    (processEvents Side.client cfg tbl iName roes).map eraseEventBufs
      = (processEvents Side.server cfg tbl iName roes).map eraseEventBufs := by
  unfold processEvents
  rw [List.map_map, List.map_map]
  apply List.map_congr_left
  intro r _
  show eraseEventBufs (mkGoEvent Side.client cfg tbl iName r)
      = eraseEventBufs (mkGoEvent Side.server cfg tbl iName r)
  unfold eraseEventBufs mkGoEvent
  simp only [List.map_map]
  have hf : (eraseArgBuf ∘ mkGoArg Side.client cfg tbl)
      = (eraseArgBuf ∘ mkGoArg Side.server cfg tbl) :=
    funext fun a => mkGoArg_erase_side cfg tbl a
  rw [hf]

/-- C2: role symmetry.  (1) The outbound list under the client role is
exactly the inbound list under the server role and vice versa (same
entries, hence same argument sets); (2) outbound opcodes are positional
under either role, so the swapped lists keep their opcodes; (3) building
the same inbound list under the two roles yields identical binding lists
up to decode expressions, and (4) identical bindings outright for every
argument that is not a typed new-object-id; (5) the decode expression of
a typed new-object-id argument is, under the server role, an
instantiation of the target object from an identifier read off the wire
(`NewX(p.Context(), int(event.Uint32()))`), while (6) the client-role
outbound call for a new-id-allocating request constructs the local proxy
from the caller-supplied `id` parameter. -/
theorem c2_role_symmetry (cfg : Config) (tbl : SymTable) (i : Interface) :
    (outboundSrc Side.client i = inboundSrc Side.server i
      ∧ inboundSrc Side.client i = outboundSrc Side.server i)
    ∧ (∀ (iName : Str) (side : Side),
         (processRequests cfg tbl iName (outboundSrc side i)).map GoRequest.order
           = List.range (outboundSrc side i).length)
    ∧ (∀ (iName : Str) (roes : List RoE),
         (processEvents Side.client cfg tbl iName roes).map eraseEventBufs
           = (processEvents Side.server cfg tbl iName roes).map eraseEventBufs)
    ∧ (∀ arg : Arg, ¬(arg.type = S r"new_id" ∧ arg.iface ≠ []) →
         mkGoArg Side.client cfg tbl arg = mkGoArg Side.server cfg tbl arg)
    ∧ (∀ arg : Arg, arg.type = S r"new_id" → arg.iface ≠ [] →
         (mkGoArg Side.server cfg tbl arg).bufMethod
           = dotPfxOf (dotSplit (argResolved cfg tbl arg))
             ++ S r"New" ++ lastComp (dotSplit (argResolved cfg tbl arg))
             ++ S r"(p.Context(), int(event.Uint32()))"
         ∧ (mkGoArg Side.client cfg tbl arg).bufMethod
           = S r"event.Proxy(p.Context()).("
             ++ (S r"*" ++ argResolved cfg tbl arg) ++ S r")")
    ∧ (∀ r : GoRequest, r.hasNewId = true →
         requestCtorCall r = r.pfx ++ S r"New" ++ r.newIdIface ++ S r"(p.Context(), id)") := by
  refine ⟨⟨rfl, rfl⟩,
          fun iName side => processRequests_map_order cfg tbl iName _,
          fun iName roes => processEvents_erase_side cfg tbl iName roes,
          fun arg h => mkGoArg_side_agnostic cfg tbl arg h,
          ?_,
          fun r hr => by unfold requestCtorCall; rw [if_pos hr]⟩
  intro arg ht hi
  have hm : mapFind wlTypes arg.type = none := by rw [ht]; decide
  constructor
  · unfold mkGoArg
    rw [hm]
    dsimp only
    rw [if_pos ⟨ht, rfl, hi⟩]
  · unfold mkGoArg
    rw [hm]
    dsimp only
    have hc : ¬(arg.type = S r"new_id" ∧ Side.client = Side.server ∧ arg.iface ≠ []) := by
      rintro ⟨-, hss, -⟩
      exact absurd hss (by decide)
    rw [if_neg hc, if_pos ⟨ht, hi⟩]

/-- A schema interface with one request and one event, for concrete
instantiation of the role-symmetry statement. -/
def symIface : Interface :=
  ⟨S r"demo_thing", 1,
    [⟨S r"do_stuff", [], 0, ⟨[], []⟩, [⟨S r"x", S r"uint", [], [], false⟩]⟩],
    [⟨S r"done", [], 0, ⟨[], []⟩, [⟨S r"result", S r"uint", [], [], false⟩]⟩],
    []⟩

theorem c2_role_symmetry_witness :
    (outboundSrc Side.client symIface = inboundSrc Side.server symIface)
    ∧ mkGoArg Side.client cfgWl tblW ⟨S r"x", S r"uint", [], [], false⟩
        = mkGoArg Side.server cfgWl tblW ⟨S r"x", S r"uint", [], [], false⟩
    ∧ (mkGoArg Side.server cfgWl tblW ⟨S r"id", S r"new_id", S r"wl_surface", [], false⟩).bufMethod
        = dotPfxOf (dotSplit (argResolved cfgWl tblW ⟨S r"id", S r"new_id", S r"wl_surface", [], false⟩))
          ++ S r"New"
          ++ lastComp (dotSplit (argResolved cfgWl tblW ⟨S r"id", S r"new_id", S r"wl_surface", [], false⟩))
          ++ S r"(p.Context(), int(event.Uint32()))"
    ∧ requestCtorCall (mkGoRequest cfgWl tblW (S r"DemoThing") 0
          ⟨S r"bind_it", ⟨[], []⟩, [⟨S r"id", S r"new_id", S r"wl_surface", [], false⟩]⟩)
        = (mkGoRequest cfgWl tblW (S r"DemoThing") 0
            ⟨S r"bind_it", ⟨[], []⟩, [⟨S r"id", S r"new_id", S r"wl_surface", [], false⟩]⟩).pfx
          ++ S r"New"
          ++ (mkGoRequest cfgWl tblW (S r"DemoThing") 0
              ⟨S r"bind_it", ⟨[], []⟩, [⟨S r"id", S r"new_id", S r"wl_surface", [], false⟩]⟩).newIdIface
          ++ S r"(p.Context(), id)" :=
  ⟨(c2_role_symmetry cfgWl tblW symIface).1.1,
   (c2_role_symmetry cfgWl tblW symIface).2.2.2.1 _ (by decide),
   ((c2_role_symmetry cfgWl tblW symIface).2.2.2.2.1 _ rfl (by decide)).1,
   (c2_role_symmetry cfgWl tblW symIface).2.2.2.2.2 _ (by decide)⟩

/-! ## Nullability (C7), wire-type mapping (C5), unresolved references (C3) -/

/-- C7: an inbound event argument of object type with a declared interface
decodes, when its nullable flag is set, through the nil-guarded branch of
the dispatch template — the raw proxy is fetched without a type assertion
and the payload field is assigned only inside the non-nil branch — and,
when the flag is unset, through a direct assignment whose decode
expression carries the unconditional type assertion `.(T)`. -/
theorem c7_nullable_object_decode (side : Side) (cfg : Config) (tbl : SymTable)
    (arg : Arg) (hobj : arg.type = S r"object") (hif : arg.iface ≠ []) :
    (arg.allowNull = true →
       argDecode (mkGoArg side cfg tbl arg)
         = ArgDecode.branched (lowerStr (camelCase cfg.tp arg.name))
             (S r"event.Proxy(p.Context())")
             (S r"*" ++ argResolved cfg tbl arg)
             (camelCase cfg.tp arg.name))
    ∧ (arg.allowNull = false →
       argDecode (mkGoArg side cfg tbl arg)
         = ArgDecode.direct (camelCase cfg.tp arg.name)
             (S r"event.Proxy(p.Context()).("
               ++ (S r"*" ++ argResolved cfg tbl arg) ++ S r")")) := by
  have hm : mapFind wlTypes arg.type = none := by rw [hobj]; decide
  have hnid : arg.type ≠ S r"new_id" := by rw [hobj]; decide
  have h1 : ∀ sd : Side, ¬(arg.type = S r"new_id" ∧ sd = Side.server ∧ arg.iface ≠ []) := by
    rintro sd ⟨ha, -, -⟩
    exact hnid ha
  have h2 : ¬(arg.type = S r"new_id" ∧ arg.iface ≠ []) := by
    rintro ⟨ha, -⟩
    exact hnid ha
  constructor
  · intro hnull
    have h3 : ¬(arg.type = S r"object" ∧ arg.allowNull = false ∧ arg.iface ≠ []) := by
      rintro ⟨-, hf, -⟩
      rw [hnull] at hf
      exact Bool.noConfusion hf
    unfold mkGoArg
    rw [hm]
    dsimp only
    rw [if_neg (h1 side), if_neg h2, if_neg h3, if_pos ⟨hobj, hnull, hif⟩]
    unfold argDecode
    rw [if_pos ⟨rfl, by simpa [mkGoArgBase] using hnull⟩]
    rfl
  · intro hnull
    unfold mkGoArg
    rw [hm]
    dsimp only
    rw [if_neg (h1 side), if_neg h2, if_pos ⟨hobj, hnull, hif⟩]
    dsimp only [argDecode, mkGoArgBase]
    have hcond : ¬((false : Bool) = false ∧ arg.allowNull = true) := by
      rintro ⟨-, ht⟩
      rw [hnull] at ht
      exact Bool.noConfusion ht
    rw [if_neg hcond]

theorem c7_nullable_object_decode_witness :
    argDecode (mkGoArg Side.client cfgWl tblW ⟨S r"s", S r"object", S r"wl_surface", [], true⟩)
      = ArgDecode.branched
          (lowerStr (camelCase cfgWl.tp (S r"s")))
          (S r"event.Proxy(p.Context())")
          (S r"*" ++ argResolved cfgWl tblW ⟨S r"s", S r"object", S r"wl_surface", [], true⟩)
          (camelCase cfgWl.tp (S r"s"))
    ∧ argDecode (mkGoArg Side.client cfgWl tblW ⟨S r"s", S r"object", S r"wl_surface", [], false⟩)
      = ArgDecode.direct (camelCase cfgWl.tp (S r"s"))
          (S r"event.Proxy(p.Context()).("
            ++ (S r"*" ++ argResolved cfgWl tblW ⟨S r"s", S r"object", S r"wl_surface", [], false⟩)
            ++ S r")") :=
  ⟨(c7_nullable_object_decode Side.client cfgWl tblW _ rfl (by decide)).1 rfl,
   (c7_nullable_object_decode Side.client cfgWl tblW _ rfl (by decide)).2 rfl⟩

/-- C5 (amended): the wire-type mapping is total on the six
scalar/aggregate tags — each has a target type and a decode operation —
but an argument whose tag lies outside the closed set is *not* fatal:
the event path builds a generic-proxy binding for it, and the request
path emits a parameter whose type text is the empty zero value. -/
theorem c5_wire_type_mapping (cfg : Config) (tbl : SymTable) (side : Side) :
    (∀ tag ∈ [S r"int", S r"uint", S r"string", S r"fd", S r"fixed", S r"array"],
       (mapFind wlTypes tag).isSome = true
       ∧ (mapFind bufTypesMap (mapGet wlTypes tag)).isSome = true)
    ∧ (∀ arg : Arg, mapFind wlTypes arg.type = none →
         arg.type ≠ S r"new_id" → arg.type ≠ S r"object" →
         (mkGoArg side cfg tbl arg).type = cfg.wlP ++ S r"Proxy"
         ∧ (mkGoArg side cfg tbl arg).bufMethod
             = S r"event." ++ cfg.wlP ++ S r"Proxy(p.Context())"
         ∧ (mkGoArg side cfg tbl arg).basicType = false)
    ∧ (∀ (st : ReqState) (arg : Arg), mapFind wlTypes arg.type = none →
         arg.type ≠ S r"new_id" → arg.type ≠ S r"object" →
         (reqStep cfg tbl st arg).params
           = st.params
             ++ [(if arg.name = S r"interface" then S r"iface" else arg.name) ++ S r" "]) := by
  refine ⟨by decide, ?_, ?_⟩
  · intro arg hm hnid hobj
    have h1 : ¬(arg.type = S r"new_id" ∧ side = Side.server ∧ arg.iface ≠ []) := by
      rintro ⟨ha, -, -⟩
      exact hnid ha
    have h2 : ¬(arg.type = S r"new_id" ∧ arg.iface ≠ []) := by
      rintro ⟨ha, -⟩
      exact hnid ha
    have h3 : ¬(arg.type = S r"object" ∧ arg.allowNull = false ∧ arg.iface ≠ []) := by
      rintro ⟨ha, -, -⟩
      exact hobj ha
    have h4 : ¬(arg.type = S r"object" ∧ arg.allowNull = true ∧ arg.iface ≠ []) := by
      rintro ⟨ha, -, -⟩
      exact hobj ha
    unfold mkGoArg
    rw [hm]
    dsimp only
    rw [if_neg h1, if_neg h2, if_neg h3, if_neg h4]
    exact ⟨rfl, rfl, rfl⟩
  · intro st arg hm hnid hobj
    have h2 : ¬(arg.type = S r"object" ∧ arg.iface ≠ []) := by
      rintro ⟨ha, -⟩
      exact hobj ha
    have hz : mapGet wlTypes arg.type = [] := by
      unfold mapGet
      rw [hm]
      rfl
    unfold reqStep
    rw [if_neg hnid, if_neg h2]
    dsimp only
    rw [hz, List.append_nil]

/-- C5 counterexample: an argument with the unknown wire-type tag `weird`
does not abort generation — the event path yields a concrete
generic-proxy binding, and a full run over a schema containing it still
produces output. -/
theorem c5_counterexample :
    mkGoArg Side.client cfgWl [] ⟨S r"x", S r"weird", [], [], false⟩
      = ⟨S r"X", S r"Proxy", S r"x", S r"event.Proxy(p.Context())", false, false, []⟩
    ∧ (generate cfgWl Side.client weirdP (S r"t")).2 ≠ [] := by decide

/-- C3 (amended): an argument of object type whose referenced interface
was never registered is not an error: the Go map read silently yields the
zero value `""`, the parameter is emitted with an empty type text after
the `*`, and generation continues (the send-arguments still carry the
parameter). -/
theorem c3_unresolved_reference_is_silent (cfg : Config) (tbl : SymTable)
    (st : ReqState) (arg : Arg) (hobj : arg.type = S r"object") (hif : arg.iface ≠ [])
    (hmiss : mapFind tbl (stripUnstable cfg.sfx arg.iface) = none) :
    (reqStep cfg tbl st arg).params
      = st.params ++ [(if arg.name = S r"interface" then S r"iface" else arg.name) ++ S r" *"]
    ∧ (reqStep cfg tbl st arg).sendArgs
      = st.sendArgs ++ [if arg.name = S r"interface" then S r"iface" else arg.name] := by
  have hnid : arg.type ≠ S r"new_id" := by rw [hobj]; decide
  have hz : mapGet tbl (stripUnstable cfg.sfx arg.iface) = [] := by
    unfold mapGet
    rw [hmiss]
    rfl
  unfold reqStep
  rw [if_neg hnid, if_pos ⟨hobj, hif⟩]
  dsimp only
  rw [hz, List.append_nil]
  exact ⟨rfl, rfl⟩

theorem c3_unresolved_reference_is_silent_witness :
    (reqStep cfgWl [] ⟨[], [], [], false, [], []⟩ ⟨S r"x", S r"object", S r"ghost", [], false⟩).params
      = [] ++ [(if (S r"x") = S r"interface" then S r"iface" else S r"x") ++ S r" *"] :=
  (c3_unresolved_reference_is_silent cfgWl [] ⟨[], [], [], false, [], []⟩
      ⟨S r"x", S r"object", S r"ghost", [], false⟩ rfl (by decide) (by decide)).1

/-- C3 counterexample: on a schema whose only request references the
undeclared interface `ghost`, the run completes — the header is written
and the fragment stream holds the interface type, the constructor and the
malformed request binding whose parameter list is `"x *"` (empty resolved
type) — instead of failing with an `UnresolvedSymbol` error and zero
bytes of output. -/
theorem c3_counterexample :
    (generate cfgWl Side.client ghostP (S r"t")).1 ≠ []
    ∧ (generate cfgWl Side.client ghostP (S r"t")).2
        = [Fragment.ifaceType (S r"DemoThing") [] [],
           Fragment.ctor Side.client (S r"DemoThing") [],
           Fragment.request
             ⟨S r"DoIt", S r"DemoThing", S r"x *", S r"error", S r",x",
              false, [], [], 0, [], S r"// " ++ nl⟩] := by decide

/-! ## Determinism (C4) -/

/-- C4 (amended): a generation run is a function of the schema, role and
configuration *and of the formatted `time.Now()` timestamp*: the output
decomposes as a fixed prefix, the timestamp, a fixed postfix and a
timestamp-independent fragment stream.  Runs with equal timestamps are
byte-identical; the timestamp is the only varying part between runs. -/
theorem c4_deterministic_modulo_timestamp (cfg : Config) (side : Side) (p : Protocol)
    (now : Str) :
    generate cfg side p now
      = (genHeaderPre cfg p.name ++ now ++ genHeaderPost cfg,
         (p.interfaces.map (buildIface cfg (mainTable cfg p) side)).flatten) := by
  unfold generate genHeader genHeaderPre genHeaderPost
  simp [List.append_assoc]

/-- C4 counterexample: two runs over the same schema, role and
configuration but at different wall-clock times produce different bytes
(the `// on <timestamp>` header line), refuting byte-identical output
across repeated runs. -/
theorem c4_counterexample :
    generate cfgWl Side.client ⟨S r"wayland", []⟩ (S r"2020-01-01 00:00:00 +0000")
      ≠ generate cfgWl Side.client ⟨S r"wayland", []⟩ (S r"2020-01-02 00:00:00 +0000") := by
  decide

theorem c5_wire_type_mapping_witness :
    ((mapFind wlTypes (S r"fixed")).isSome = true
      ∧ (mapFind bufTypesMap (mapGet wlTypes (S r"fixed"))).isSome = true)
    ∧ (mkGoArg Side.client cfgWl [] ⟨S r"x", S r"weird", [], [], false⟩).type
        = cfgWl.wlP ++ S r"Proxy" :=
  ⟨(c5_wire_type_mapping cfgWl [] Side.client).1 (S r"fixed") (by decide),
   ((c5_wire_type_mapping cfgWl [] Side.client).2.1 ⟨S r"x", S r"weird", [], [], false⟩
      (by decide) (by decide) (by decide)).1⟩

/-! ## Identifier derivation (C6) -/

theorem char_toNat_ofNat (n : Nat) (h : n.isValidChar) : (Char.ofNat n).toNat = n := by
  rw [Char.ofNat, dif_pos h]
  simp [Char.ofNatAux, Char.toNat, UInt32.toNat]

/-- The ASCII upper-case image of an alphanumeric character is never a
space. -/
theorem toUpper_ne_space {c : Char} (h : c.isAlpha = true ∨ c.isDigit = true) :
    ¬ Char.toUpper c = ' ' := by
  unfold Char.toUpper
  dsimp only
  by_cases hr : c.toNat ≥ 97 ∧ c.toNat ≤ 122
  · rw [if_pos hr]
    intro heq
    have h2 := congrArg Char.toNat heq
    rw [char_toNat_ofNat (c.toNat - 32) (Or.inl (by omega))] at h2
    have h3 : Char.toNat ' ' = 32 := rfl
    rw [h3] at h2
    omega
  · rw [if_neg hr]
    rintro rfl
    rcases h with h|h <;> exact absurd h (by decide)

theorem removeSpaces_cons_of_ne (a : Char) (s : Str) (h : ¬ a = ' ') :
    removeSpaces (a :: s) = a :: removeSpaces s := by
  simp [removeSpaces, h]

theorem removeSpaces_cons_space (s : Str) :
    removeSpaces (' ' :: s) = removeSpaces s := by
  simp [removeSpaces]

theorem splitOnChar_ne_nil (sep : Char) (s : Str) : splitOnChar sep s ≠ [] := by
  induction s with
  | nil => simp [splitOnChar]
  | cons c rest ih =>
    unfold splitOnChar
    cases h : splitOnChar sep rest with
    | nil => exact absurd h ih
    | cons g gs => by_cases hc : c = sep <;> simp [hc]

/-- Core equivalence: over the wire-name alphabet (ASCII alphanumerics and
underscore), the generator's replace-underscore / `strings.Title` /
remove-spaces pipeline computes exactly "split on underscore, title-case
each segment, concatenate".  Stated for an arbitrary `strings.Title`
carry character `p`. -/
theorem titleSplit_core (s : Str) :
    (∀ c ∈ s, c.isAlpha = true ∨ c.isDigit = true ∨ c = '_') → ∀ p : Char,
    removeSpaces (goTitleAux p (replChar '_' ' ' s))
      = (if isSep p = true
         then ((splitOnChar '_' s).map titleSeg).flatten
         else (splitOnChar '_' s).headD []
              ++ (((splitOnChar '_' s).tail).map titleSeg).flatten) := by
  induction s with
  | nil =>
    intro _ p
    by_cases hp : isSep p = true <;>
      simp [hp, replChar, goTitleAux, removeSpaces, splitOnChar, titleSeg]
  | cons c rest ih =>
    intro hs p
    have hc := hs c (List.mem_cons_self c rest)
    have hrest : ∀ d ∈ rest, d.isAlpha = true ∨ d.isDigit = true ∨ d = '_' :=
      fun d hd => hs d (List.mem_cons_of_mem c hd)
    obtain ⟨g, gs, hsplit⟩ : ∃ g gs, splitOnChar '_' rest = g :: gs := by
      cases h : splitOnChar '_' rest with
      | nil => exact absurd h (splitOnChar_ne_nil '_' rest)
      | cons g gs => exact ⟨g, gs, rfl⟩
    have hrepl : replChar '_' ' ' (c :: rest)
        = (if c = '_' then ' ' else c) :: replChar '_' ' ' rest := rfl
    by_cases hund : c = '_'
    · subst hund
      rw [hrepl, if_pos rfl]
      have hg : goTitleAux p (' ' :: replChar '_' ' ' rest)
          = (if isSep p = true then Char.toUpper ' ' else ' ')
            :: goTitleAux ' ' (replChar '_' ' ' rest) := rfl
      rw [hg]
      have hsp : (if isSep p = true then Char.toUpper ' ' else ' ') = ' ' := by
        by_cases hp : isSep p = true <;> simp [hp]
      rw [hsp, removeSpaces_cons_space]
      have ih' := ih hrest ' '
      rw [if_pos (by decide)] at ih'
      rw [ih']
      have hsp2 : splitOnChar '_' ('_' :: rest) = [] :: g :: gs := by
        simp [splitOnChar, hsplit]
      rw [hsp2, hsplit]
      by_cases hp : isSep p = true <;> simp [hp, titleSeg]
    · have han : c.isAlpha = true ∨ c.isDigit = true := by
        rcases hc with h|h|h
        · exact Or.inl h
        · exact Or.inr h
        · exact absurd h hund
      have hcsep : isSep c = false := by
        rcases han with h|h <;> simp [isSep, h]
      have hcspace : ¬ c = ' ' := by
        rintro rfl
        rcases han with h|h <;> exact absurd h (by decide)
      have hcupper : ¬ Char.toUpper c = ' ' := toUpper_ne_space han
      rw [hrepl, if_neg hund]
      have hg : goTitleAux p (c :: replChar '_' ' ' rest)
          = (if isSep p = true then Char.toUpper c else c)
            :: goTitleAux c (replChar '_' ' ' rest) := rfl
      rw [hg]
      have hsp2 : splitOnChar '_' (c :: rest) = (c :: g) :: gs := by
        simp [splitOnChar, hsplit, hund]
      rw [hsp2]
      have hpc : ¬ (isSep c = true) := by
        rw [hcsep]
        decide
      have ih' := ih hrest c
      rw [if_neg hpc, hsplit] at ih'
      by_cases hp : isSep p = true
      · rw [if_pos hp, if_pos hp, removeSpaces_cons_of_ne _ _ hcupper, ih']
        simp [titleSeg]
      · rw [if_neg hp, if_neg hp, removeSpaces_cons_of_ne _ _ hcspace, ih']
        simp [titleSeg]

theorem mem_dropPfx (p s : Str) (c : Char) (h : c ∈ dropPfx p s) : c ∈ s := by
  unfold dropPfx at h
  split at h
  · exact List.drop_subset _ _ h
  · exact h

theorem mem_dropSfx (suf s : Str) (c : Char) (h : c ∈ dropSfx suf s) : c ∈ s := by
  unfold dropSfx at h
  split at h
  · exact List.take_subset _ _ h
  · exact h

/-- C6 (amended): over the wire-name alphabet (ASCII letters, digits and
underscore), the derived identifier equals the result of stripping the
configured unstable suffix *first*, then the package-local prefix, then
splitting on underscore, title-casing each segment and concatenating —
the code applies the two strips in that order; the claim's examples hold:
`wl_shm_pool ↦ ShmPool`, and `xdg_surface_v6` under suffix token `v6`
derives the same identifier as `xdg_surface`. -/
theorem c6_identifier_derivation :
    (∀ (cfg : Config) (wireName : Str),
        (∀ c ∈ wireName, c.isAlpha = true ∨ c.isDigit = true ∨ c = '_') →
        derivedId cfg wireName = specDerivedIdSfxFirst cfg wireName)
    ∧ derivedId cfgWl (S r"wl_shm_pool") = S r"ShmPool"
    ∧ derivedId ⟨S r"wl", S r"v6", []⟩ (S r"xdg_surface_v6")
        = derivedId ⟨S r"wl", S r"v6", []⟩ (S r"xdg_surface") := by
  refine ⟨?_, by decide, by decide⟩
  intro cfg w hw
  unfold derivedId camelCase stripUnstable specDerivedIdSfxFirst goTitle
  have hchars : ∀ c ∈ dropPfx cfg.tp (dropSfx cfg.sfx w),
      c.isAlpha = true ∨ c.isDigit = true ∨ c = '_' :=
    fun c hcm => hw c (mem_dropSfx _ _ _ (mem_dropPfx _ _ _ hcm))
  have h := titleSplit_core (dropPfx cfg.tp (dropSfx cfg.sfx w)) hchars ' '
  rwa [if_pos (by decide)] at h

theorem c6_identifier_derivation_witness :
    derivedId cfgWl (S r"wl_shm_pool") = specDerivedIdSfxFirst cfgWl (S r"wl_shm_pool")
    ∧ derivedId cfgWl (S r"wl_shm_pool") = S r"ShmPool" :=
  ⟨c6_identifier_derivation.1 cfgWl (S r"wl_shm_pool") (by decide),
   c6_identifier_derivation.2.1⟩

/-- C6 counterexample: the claim strips the package prefix before the
unstable suffix; the code strips the suffix first.  On the wire name
`wl_v6` with prefix `wl_` and suffix token `v6` the two orders disagree:
the code derives `Wl`, the claim's pipeline derives `V6`. -/
theorem c6_counterexample :
    derivedId ⟨S r"wl", S r"v6", []⟩ (S r"wl_v6")
        ≠ specDerivedId ⟨S r"wl", S r"v6", []⟩ (S r"wl_v6")
    ∧ derivedId ⟨S r"wl", S r"v6", []⟩ (S r"wl_v6") = S r"Wl"
    ∧ specDerivedId ⟨S r"wl", S r"v6", []⟩ (S r"wl_v6") = S r"V6" := by
  decide
